import Mathlib

/-!
Verification of the Keystroke Kingdom game backend (Django app `game`).

Shallow embedding of `src/game/views.py`, `src/game/models.py` and
`src/game/serializers.py`: JSON-like request payloads are modelled by the
inductive `PyVal`, the database tables by Lean lists of records, the Django
cache by explicit expiring entries, and each view body by a pure function
from (state, request) to (state, response).
-/

/-- A Python/JSON value as it appears in `request.data` and in stored
`game_state` blobs. -/
inductive PyVal where
  | none
  | bool (b : Bool)
  | int (n : ℤ)
  | float (q : ℚ)
  | str (s : String)
  | list (l : List PyVal)
  | dict (l : List (String × PyVal))

/-- Python dict lookup on an association list (first binding wins, matching
dict key uniqueness). -/
def pyLookup (d : List (String × PyVal)) (k : String) : Option PyVal :=
  (d.find? (fun p => p.1 == k)).map Prod.snd

/-- The numeric value a Python chained comparison `lo <= x <= hi` sees:
ints and floats compare numerically and `bool` coerces to 0/1; any other
type raises `TypeError` (modelled as `Option.none`). -/
def pyNum : PyVal → Option ℚ
  | .bool b => some (if b then 1 else 0)
  | .int n => some (n : ℚ)
  | .float q => some q
  | _ => Option.none

/-- Python `lo <= x <= hi` on a `PyVal`: `none` models a raised `TypeError`. -/
def pyInRange (lo hi : ℚ) (v : PyVal) : Option Bool :=
  (pyNum v).map (fun q => decide (lo ≤ q) && decide (q ≤ hi))

/-- Result of `validate_game_state`: the `(is_valid, error_message)` pair,
with `typeError` for a `TypeError` escaping the comparison (caught by the
caller's `except` clause). -/
inductive VResult where
  | ok
  | err (msg : String)
  | typeError
deriving DecidableEq, Repr

/-- Embedding of `validate_game_state` (views.py:68-91): require a dict,
require the three fields (in order, short-circuiting with a specific
message), then range-check `currentDay` in [1,100], `employment` in
[0,100], `inflation` in [-10,100], in that order. -/
def validate_game_state (game_state : PyVal) : VResult :=
  match game_state with
  | .dict d =>
    if (pyLookup d "currentDay").isNone then .err "Missing required field: currentDay"
    else if (pyLookup d "employment").isNone then .err "Missing required field: employment"
    else if (pyLookup d "inflation").isNone then .err "Missing required field: inflation"
    else
      match pyInRange 1 100 ((pyLookup d "currentDay").getD (.int 0)) with
      | Option.none => .typeError
      | some false => .err "Invalid currentDay value"
      | some true =>
        match pyInRange 0 100 ((pyLookup d "employment").getD (.int (-1))) with
        | Option.none => .typeError
        | some false => .err "Invalid employment value"
        | some true =>
          match pyInRange (-10) 100 ((pyLookup d "inflation").getD (.int (-100))) with
          | Option.none => .typeError
          | some false => .err "Invalid inflation value"
          | some true => .ok
  | _ => .err "Game state must be a JSON object"

/-- A row of the `GameSave` table (models.py:8-29).  Payload fields keep the
raw request values; timestamps are abstract ticks. -/
structure GameSave where
  user : ℕ
  game_state : PyVal
  day : PyVal
  employment : PyVal
  inflation : PyVal
  services_score : PyVal
  created_at : ℕ
  updated_at : ℕ

/-- Response of `save_game`: 200 with the persisted slot, or 400 with the
validator's message, or 400 from the surrounding `except` clause. -/
inductive SaveResp where
  | ok (slot : GameSave)
  | badRequest (error : String)
  | exception

/-- Embedding of the body of `save_game` (views.py:107-160), after the
authentication and rate-limit decorators have admitted the request:
validate the game state, then `get_or_create` on `user` and, when the row
already existed, overwrite all payload fields in place (refreshing
`updated_at`).  `get_or_create` raises `MultipleObjectsReturned` (caught by
the `except` clause) when several rows match. -/
def save_game_body (db : List GameSave) (now : ℕ) (u : ℕ)
    (gs day emp inf svc : PyVal) : List GameSave × SaveResp :=
  match validate_game_state gs with
  | .err m => (db, .badRequest m)
  | .typeError => (db, .exception)
  | .ok =>
    match db.filter (fun r => r.user == u) with
    | [] =>
      let slot : GameSave := ⟨u, gs, day, emp, inf, svc, now, now⟩
      (db ++ [slot], .ok slot)
    | [r] =>
      let slot : GameSave :=
        { r with game_state := gs, day := day, employment := emp,
                 inflation := inf, services_score := svc, updated_at := now }
      (db.map (fun r => if r.user == u then
        { r with game_state := gs, day := day, employment := emp,
                 inflation := inf, services_score := svc, updated_at := now }
        else r), .ok slot)
    | _ => (db, .exception)

/-- Response of `load_game`, written out as the envelope the view builds:
`found` is 200/`success: true`, `notFound` is 404 with `success: false` and
a `message` key (no `error` key), `failure` is the 400 `except` path with
an `error` key. -/
inductive LoadResp where
  | found (slot : GameSave)
  | notFound (status : ℕ) (success : Bool) (message : String)
  | failure (status : ℕ) (success : Bool) (error : String)

/-- Insertion into a list kept in descending `updated_at` order (the model
`Meta.ordering = ['-updated_at']` that `load_game`'s unordered queryset
inherits). -/
def insertByUpdatedDesc (r : GameSave) : List GameSave → List GameSave
  | [] => [r]
  | x :: xs => if x.updated_at ≤ r.updated_at then r :: x :: xs else x :: insertByUpdatedDesc r xs

/-- Sort rows by descending `updated_at` (stable). -/
def orderByUpdatedDesc : List GameSave → List GameSave
  | [] => []
  | x :: xs => insertByUpdatedDesc x (orderByUpdatedDesc xs)

/-- Embedding of the body of `load_game` (views.py:165-194): filter the
table on the user, take the first row under the model ordering, and answer
404 (`success: false`, a `message`, no `error` key) when there is none. -/
def load_game_body (db : List GameSave) (u : ℕ) : LoadResp :=
  match orderByUpdatedDesc (db.filter (fun r => r.user == u)) with
  | [] => .notFound 404 false "No saved game found"
  | r :: _ => .found r

/-- One `save_game` request payload together with its arrival tick. -/
structure SavePayload where
  gs : PyVal
  day : PyVal
  emp : PyVal
  inf : PyVal
  svc : PyVal
  now : ℕ

/-- Run a sequence of `save_game` requests for one user. -/
def save_many (db : List GameSave) (u : ℕ) : List SavePayload → List GameSave
  | [] => db
  | p :: ps => save_many (save_game_body db p.now u p.gs p.day p.emp p.inf p.svc).1 u ps

/-- A concrete valid `game_state` payload used by witnesses. -/
def demoState : PyVal :=
  .dict [("currentDay", .int 50), ("employment", .int 50), ("inflation", .int 0)]

/-- A concrete `save_game` payload used by witnesses. -/
def demoPayload : SavePayload :=
  ⟨demoState, .int 50, .float (121/2), .float 2, .float 30, 7⟩

/-- The per-key payload the limiter stores in the cache:
`{'count': ..., 'start': ...}`.  Timestamps are rationals standing for the
real-valued `time.time()` clock. -/
structure RateData where
  count : ℕ
  start : ℚ
deriving DecidableEq, Repr

/-- A cache slot for one rate-limit key: the stored data together with its
absolute expiry time (`cache.set(key, data, ttl)` at time `t` expires at
`t + ttl`). -/
structure CacheEntry where
  data : RateData
  expiry : ℚ
deriving DecidableEq, Repr

/-- `cache.get` at time `now`: present until the ttl has elapsed. -/
def cacheGet (e : Option CacheEntry) (now : ℚ) : Option RateData :=
  match e with
  | some entry => if now < entry.expiry then some entry.data else Option.none
  | Option.none => Option.none

/-- Outcome of one pass through the `rate_limit` wrapper: the request is
either let through to the view or answered with the 429 envelope. -/
inductive RLOutcome where
  | allowed
  | denied (status : ℕ) (error : String)
deriving DecidableEq, Repr

/-- Embedding of one invocation of the `rate_limit` wrapper (views.py:40-62)
for a fixed key: read the window state, create `{count 1, start now}` when
absent or when `now - start > window_seconds`, deny with 429 when
`count >= max_requests`, else increment and re-store with the configured
`window_seconds` as the ttl. -/
def rate_limit_step (max_requests : ℕ) (window_seconds : ℚ)
    (st : Option CacheEntry) (now : ℚ) : RLOutcome × Option CacheEntry :=
  match cacheGet st now with
  | Option.none => (.allowed, some ⟨⟨1, now⟩, now + window_seconds⟩)
  | some rd =>
    if now - rd.start > window_seconds then
      (.allowed, some ⟨⟨1, now⟩, now + window_seconds⟩)
    else if rd.count ≥ max_requests then
      (.denied 429 "Rate limit exceeded. Please try again later.", st)
    else
      (.allowed, some ⟨⟨rd.count + 1, rd.start⟩, now + window_seconds⟩)

/-- Run the limiter over a sequence of request times for one key. -/
def rate_limit_run (max_requests : ℕ) (window_seconds : ℚ)
    (st : Option CacheEntry) : List ℚ → List RLOutcome × Option CacheEntry
  | [] => ([], st)
  | t :: ts =>
    let step := rate_limit_step max_requests window_seconds st t
    let rest := rate_limit_run max_requests window_seconds step.2 ts
    (step.1 :: rest.1, rest.2)

/-- Python `str.ljust`: pad on the right with spaces up to the width. -/
def pyLjust (l : List Char) (n : ℕ) : List Char :=
  l ++ List.replicate (n - l.length) ' '

/-- Embedding of `HighScoreSubmitSerializer.validate_initials`
(serializers.py:46-55): uppercase the input, keep only letters, reject
when nothing remains, truncate to 3 and left-justify with spaces; `error`
models the raised `serializers.ValidationError`. -/
def validate_initials (value : String) : Except String String :=
  let cleaned := (value.data.map Char.toUpper).filter Char.isAlpha
  if cleaned.length = 0 then .error "Initials must contain at least one letter"
  else
    let cleaned2 := if cleaned.length > 3 then cleaned.take 3 else cleaned
    .ok (String.mk ((pyLjust cleaned2 3).take 3))

/-- A row of the `HighScore` table (models.py:32-58).  `user` is nullable in
the schema; `achieved_at` is an abstract tick. -/
structure HighScore where
  user : Option ℕ
  initials : String
  score : ℤ
  final_day : ℤ
  employment : ℚ
  inflation : ℚ
  services : ℚ
  achieved_at : ℕ
deriving DecidableEq, Repr

/-- Response of `submit_score`: 201 with the stored entry, 400 with field
errors, or the 401/403 `IsAuthenticated` permission rejection issued before
the view body runs. -/
inductive SubmitResp where
  | created (status : ℕ) (entry : HighScore)
  | validationError (status : ℕ)
  | authError
deriving DecidableEq, Repr

/-- Embedding of the `submit_score` pipeline (views.py:197-228): the
`IsAuthenticated` permission class rejects requests with no authenticated
identity before the body runs; otherwise the serializer checks the
`initials` field length bounds (serializers.py:35-40) and normalizes it
(serializers.py:46-55), and on success the entry is inserted with
`user=request.user` (views.py:210). -/
def submit_score (db : List HighScore) (now : ℕ) (identity : Option ℕ)
    (initials : String) (score final_day : ℤ) (employment inflation services : ℚ) :
    List HighScore × SubmitResp :=
  match identity with
  | Option.none => (db, .authError)
  | some u =>
    if initials.length < 1 ∨ initials.length > 3 then (db, .validationError 400)
    else
      match validate_initials initials with
      | .error _ => (db, .validationError 400)
      | .ok ini =>
        let entry : HighScore := ⟨some u, ini, score, final_day, employment, inflation, services, now⟩
        (db ++ [entry], .created 201 entry)

/-- ASCII decimal digit, as accepted by Python `int(str)`. -/
def isPyDigit (c : Char) : Bool := '0' ≤ c && c ≤ '9'

/-- Whitespace stripped by Python `int(str)` (ASCII subset). -/
def isPySpace (c : Char) : Bool :=
  c = ' ' || c = '\t' || c = '\n' || c = '\r' || c = '\x0b' || c = '\x0c'

/-- Continuation of a Python integer literal body: digits, with single
underscores allowed only between digits. -/
def numTail : List Char → Bool
  | [] => true
  | [c] => isPyDigit c
  | c :: d :: rest =>
    if isPyDigit c then numTail (d :: rest)
    else c = '_' && isPyDigit d && numTail rest

/-- A valid Python integer literal body: at least one digit, underscores
only between digits. -/
def numBody : List Char → Bool
  | [] => false
  | c :: rest => isPyDigit c && numTail rest

/-- Decimal value of a digit-and-underscore body. -/
def digitsVal (l : List Char) : ℕ :=
  l.foldl (fun acc c => if isPyDigit c then 10 * acc + (c.toNat - 48) else acc) 0

/-- Embedding of Python `int(str)`: strip surrounding whitespace, allow one
optional sign, then require a digit body; `none` models the raised
`ValueError`. -/
def pyInt? (s : String) : Option ℤ :=
  let l := ((s.data.dropWhile isPySpace).reverse.dropWhile isPySpace).reverse
  match l with
  | '+' :: rest => if numBody rest then some ((digitsVal rest : ℕ) : ℤ) else Option.none
  | '-' :: rest => if numBody rest then some (-((digitsVal rest : ℕ) : ℤ)) else Option.none
  | _ => if numBody l then some ((digitsVal l : ℕ) : ℤ) else Option.none

/-- Stable insertion (descending score) used to model the SQL
`ORDER BY score DESC` of `.order_by('-score')`: ties keep table order. -/
def insertByScoreDesc (e : HighScore) : List HighScore → List HighScore
  | [] => [e]
  | x :: xs => if x.score ≤ e.score then e :: x :: xs else x :: insertByScoreDesc e xs

/-- The sequence produced by `HighScore.objects.order_by('-score')`:
descending score, ties in table order. -/
def orderByScoreDesc : List HighScore → List HighScore
  | [] => []
  | x :: xs => insertByScoreDesc x (orderByScoreDesc xs)

/-- Response of `leaderboard`: 200 with the (possibly cached) list, or the
400 `except` path (e.g. `int()` raising `ValueError`, or the negative-limit
queryset slice raising). -/
inductive LBResp where
  | ok (data : List HighScore)
  | err (status : ℕ) (success : Bool)
deriving DecidableEq, Repr

/-- Embedding of `leaderboard` (views.py:233-274): parse the `limit` query
parameter with `int()` defaulting to 50 when absent, cap it with
`min(limit, 100)`, serve a cached list when one exists for that capped
limit, otherwise answer the first `limit` rows of the score table ordered
by descending score.  A parse failure, or the queryset's rejection of a
negative slice, is caught by the `except` clause and answered as 400. -/
def leaderboard (db : List HighScore) (lbCache : ℤ → Option (List HighScore))
    (limitParam : Option String) : LBResp :=
  match (match limitParam with
         | Option.none => some (50 : ℤ)
         | some s => pyInt? s) with
  | Option.none => .err 400 false
  | some l0 =>
    let limit := min l0 100
    match lbCache limit with
    | some data => .ok data
    | Option.none =>
      if limit < 0 then .err 400 false
      else .ok ((orderByScoreDesc db).take limit.toNat)

/-- A concrete stored score used by counterexamples and witnesses. -/
def demoScore : HighScore := ⟨some 1, "AAA", 100, 10, 50, 2, 30, 1⟩

/-- Two entries with equal score and distinct achieved ticks, in table
(insertion) order, used to exhibit the tie-break behavior. -/
def demoTieEarly : HighScore := ⟨Option.none, "AAA", 100, 10, 50, 2, 30, 1⟩

/-- The later of the two tied entries. -/
def demoTieLate : HighScore := ⟨Option.none, "BBB", 100, 10, 50, 2, 30, 2⟩

example : validate_game_state (.dict [("currentDay", .int 50), ("employment", .int 50), ("inflation", .int 0)]) = .ok := by decide

example : validate_game_state (.dict [("currentDay", .int 0), ("employment", .int 50), ("inflation", .int 0)]) = .err "Invalid currentDay value" := by decide

example : validate_game_state (.dict [("currentDay", .int 101), ("employment", .int 50), ("inflation", .int 0)]) = .err "Invalid currentDay value" := by decide

example : validate_game_state (.dict [("currentDay", .float (101/2)), ("employment", .int 50), ("inflation", .int 0)]) = .ok := by
  simp [validate_game_state, pyLookup, pyInRange, pyNum, List.find?]
  norm_num

lemma filter_map_comm {α : Type} (p : α → Bool) (f : α → α)
    (hf : ∀ a, p (f a) = p a) : ∀ l : List α, (l.map f).filter p = (l.filter p).map f := by
  intro l
  induction l with
  | nil => rfl
  | cons x xs ih =>
    by_cases hx : p x
    · simp [List.filter_cons, hf, hx, ih]
    · simp [List.filter_cons, hf, hx, ih]

/-- After one successful `save_game` for a user who had at most one row,
the table holds exactly one row for that user, carrying the submitted
payload and the fresh `updated_at`. -/
lemma save_once (db : List GameSave) (now u : ℕ) (gs day emp inf svc : PyVal)
    (hv : validate_game_state gs = .ok)
    (hc : (db.filter (fun r => r.user == u)).length ≤ 1) :
    ∃ ca, ((save_game_body db now u gs day emp inf svc).1.filter (fun r => r.user == u)) =
      [⟨u, gs, day, emp, inf, svc, ca, now⟩] := by
  rcases h : db.filter (fun r => r.user == u) with _ | ⟨r, _ | ⟨r2, rest⟩⟩
  · refine ⟨now, ?_⟩
    simp [save_game_body, hv, h, List.filter_append]
  · have hru : (r.user == u) = true := by
      have hmem : r ∈ db.filter (fun r => r.user == u) := by
        rw [h]; exact List.mem_singleton.mpr rfl
      exact (List.mem_filter.mp hmem).2
    have hru' : r.user = u := by simpa using hru
    refine ⟨r.created_at, ?_⟩
    simp only [save_game_body, hv, h]
    rw [filter_map_comm _ _ ?_ db, h]
    · simp [hru, hru']
    · intro a
      by_cases ha : (a.user == u) = true
      · simp [ha]
      · simp [ha]
  · rw [h] at hc
    simp at hc

/-- Running a nonempty sequence of valid saves leaves exactly one row for
the user, whose payload fields come from the last save. -/
lemma save_many_filter (u : ℕ) : ∀ (ps : List SavePayload) (db : List GameSave) (p : SavePayload),
    (∀ q ∈ ps ++ [p], validate_game_state q.gs = .ok) →
    (db.filter (fun r => r.user == u)).length ≤ 1 →
    ∃ ca, (save_many db u (ps ++ [p])).filter (fun r => r.user == u) =
      [⟨u, p.gs, p.day, p.emp, p.inf, p.svc, ca, p.now⟩] := by
  intro ps
  induction ps with
  | nil =>
    intro db p hv hc
    have hvp : validate_game_state p.gs = .ok := hv p (by simp)
    obtain ⟨ca, hca⟩ := save_once db p.now u p.gs p.day p.emp p.inf p.svc hvp hc
    exact ⟨ca, by simpa [save_many] using hca⟩
  | cons q ps ih =>
    intro db p hv hc
    have hvq : validate_game_state q.gs = .ok := hv q (by simp)
    obtain ⟨ca, hca⟩ := save_once db q.now u q.gs q.day q.emp q.inf q.svc hvq hc
    have hc' : (((save_game_body db q.now u q.gs q.day q.emp q.inf q.svc).1).filter
        (fun r => r.user == u)).length ≤ 1 := by rw [hca]; simp
    have hv' : ∀ r ∈ ps ++ [p], validate_game_state r.gs = .ok := by
      intro r hr
      exact hv r (by simp at hr ⊢; tauto)
    simpa [save_many] using ih _ p hv' hc'

/-- C1: `save_game` then `load_game` round-trips, and saves overwrite a
single slot per user. For every user whose table holds at most one row and
every nonempty sequence of valid `save_game` calls, afterwards exactly one
row exists for that user, and `load_game` returns a slot whose
`game_state`, `day`, `employment`, `inflation` and `services_score` equal
the values passed to the last `save_game`. -/
theorem save_then_load_roundtrip (db : List GameSave) (u : ℕ)
    (ps : List SavePayload) (p : SavePayload)
    (hv : ∀ q ∈ ps ++ [p], validate_game_state q.gs = .ok)
    (hc : (db.filter (fun r => r.user == u)).length ≤ 1) :
    ((save_many db u (ps ++ [p])).filter (fun r => r.user == u)).length = 1 ∧
    ∃ slot, load_game_body (save_many db u (ps ++ [p])) u = .found slot ∧
      slot.user = u ∧ slot.game_state = p.gs ∧ slot.day = p.day ∧
      slot.employment = p.emp ∧ slot.inflation = p.inf ∧
      slot.services_score = p.svc ∧ slot.updated_at = p.now := by
  obtain ⟨ca, hca⟩ := save_many_filter u ps db p hv hc
  constructor
  · rw [hca]; rfl
  · refine ⟨⟨u, p.gs, p.day, p.emp, p.inf, p.svc, ca, p.now⟩, ?_, rfl, rfl, rfl, rfl, rfl, rfl, rfl⟩
    unfold load_game_body
    rw [hca]
    rfl

/-- Witness for C1: two consecutive saves on an empty table leave exactly
one row, and `load_game` returns the second payload. -/
theorem save_then_load_roundtrip_witness :
    ((save_many [] 3 ([⟨demoState, .int 1, .int 0, .int 0, .int 0, 4⟩] ++ [demoPayload])).filter
      (fun r => r.user == 3)).length = 1 ∧
    ∃ slot, load_game_body
        (save_many [] 3 ([⟨demoState, .int 1, .int 0, .int 0, .int 0, 4⟩] ++ [demoPayload])) 3 =
        .found slot ∧
      slot.user = 3 ∧ slot.game_state = demoPayload.gs ∧ slot.day = demoPayload.day ∧
      slot.employment = demoPayload.emp ∧ slot.inflation = demoPayload.inf ∧
      slot.services_score = demoPayload.svc ∧ slot.updated_at = demoPayload.now :=
  save_then_load_roundtrip [] 3 [⟨demoState, .int 1, .int 0, .int 0, .int 0, 4⟩] demoPayload
    (by intro q hq; simp [demoPayload] at hq; rcases hq with h | h <;> subst h <;> decide)
    (by decide)

/-- C8: for a user with no stored save slot, `load_game` answers the 404
not-found envelope (`success: false` with a `message` key), which is a
distinct outcome from the 400 `failure` envelope carrying an `error` key. -/
theorem load_game_not_found (db : List GameSave) (u : ℕ)
    (h : db.filter (fun r => r.user == u) = []) :
    load_game_body db u = .notFound 404 false "No saved game found" ∧
    (∀ st su e, LoadResp.notFound 404 false "No saved game found" ≠ .failure st su e) := by
  constructor
  · unfold load_game_body
    rw [h]
    rfl
  · intro st su e hcontra
    exact LoadResp.noConfusion hcontra

/-- Witness for C8: the empty table has no slot for user 3, and `load_game`
answers 404 not-found. -/
theorem load_game_not_found_witness :
    load_game_body [] 3 = .notFound 404 false "No saved game found" ∧
    (∀ st su e, LoadResp.notFound 404 false "No saved game found" ≠ .failure st su e) :=
  load_game_not_found [] 3 rfl

lemma rate_limit_run_append (m : ℕ) (w : ℚ) :
    ∀ (xs ys : List ℚ) (st : Option CacheEntry),
    rate_limit_run m w st (xs ++ ys) =
      ((rate_limit_run m w st xs).1 ++
        (rate_limit_run m w (rate_limit_run m w st xs).2 ys).1,
       (rate_limit_run m w (rate_limit_run m w st xs).2 ys).2) := by
  intro xs
  induction xs with
  | nil => intro ys st; simp [rate_limit_run]
  | cons x xs ih => intro ys st; simp [rate_limit_run, ih]

lemma chain_le_getLastD : ∀ (l : List ℚ) (t0 : ℚ), List.Chain (· ≤ ·) t0 l → t0 ≤ l.getLastD t0 := by
  intro l
  induction l with
  | nil => intro t0 _; exact le_refl t0
  | cons t ts ih =>
    intro t0 h
    rcases List.chain_cons.mp h with ⟨h1, h2⟩
    calc t0 ≤ t := h1
      _ ≤ ts.getLastD t := ih t h2
      _ = (t :: ts).getLastD t0 := (List.getLastD_cons t0 t ts).symm

lemma chain_append_single : ∀ (ts : List ℚ) (t0 tD : ℚ),
    List.Chain (· ≤ ·) t0 (ts ++ [tD]) →
    List.Chain (· ≤ ·) t0 ts ∧ ts.getLastD t0 ≤ tD := by
  intro ts
  induction ts with
  | nil =>
    intro t0 tD h
    rcases List.chain_cons.mp h with ⟨h1, _⟩
    exact ⟨List.Chain.nil, h1⟩
  | cons t ts ih =>
    intro t0 tD h
    rcases List.chain_cons.mp (by simpa using h) with ⟨h1, h2⟩
    rcases ih t tD h2 with ⟨h3, h4⟩
    exact ⟨List.chain_cons.mpr ⟨h1, h3⟩, by rw [List.getLastD_cons]; exact h4⟩

/-- While the window is open and the count is below the limit, each request
is allowed and increments the count by one, leaving `start` unchanged. -/
lemma rate_limit_run_increments (m : ℕ) (w t0 : ℚ) :
    ∀ (ts : List ℚ) (c : ℕ) (last : ℚ),
    1 ≤ c → c + ts.length ≤ m → t0 ≤ last →
    List.Chain (· ≤ ·) last ts → (∀ t ∈ ts, t - t0 < w) →
    rate_limit_run m w (some ⟨⟨c, t0⟩, last + w⟩) ts =
      (List.replicate ts.length .allowed,
       some ⟨⟨c + ts.length, t0⟩, ts.getLastD last + w⟩) := by
  intro ts
  induction ts with
  | nil =>
    intro c last _ _ _ _ _
    simp [rate_limit_run]
  | cons t ts ih =>
    intro c last h1 hlen hle hchain hwin
    rcases List.chain_cons.mp hchain with ⟨hlt, hchain'⟩
    have hwt : t - t0 < w := hwin t (by simp)
    have hhit : t < last + w := by linarith
    have hnotexp : ¬ (t - t0 > w) := by linarith
    have hcm : ¬ (c ≥ m) := by simp at hlen; omega
    have hstep : rate_limit_step m w (some ⟨⟨c, t0⟩, last + w⟩) t =
        (.allowed, some ⟨⟨c + 1, t0⟩, t + w⟩) := by
      simp [rate_limit_step, cacheGet, hhit, hnotexp, hcm]
    have hcount : c + (ts.length + 1) = (c + 1) + ts.length := by omega
    simp only [rate_limit_run, hstep]
    rw [ih (c + 1) t (by omega) (by simp at hlen ⊢; omega) (le_trans hle hlt) hchain'
      (fun x hx => hwin x (by simp [hx]))]
    simp only [List.length_cons]
    rw [List.getLastD_cons last t ts, hcount, List.replicate_succ]

/-- C2: fixed-window limiting.  For a key configured with
`max_requests = m` and `window_seconds = w`, starting from an empty cache,
`m` calls inside the window are all allowed, the `(m+1)`-th call still
inside the window is answered with the 429 rate-limit error, and a call
made after the window has elapsed is allowed again. -/
theorem rate_limit_window_behavior (m : ℕ) (w t0 tDeny tPost : ℚ) (ts : List ℚ)
    (hlen : ts.length + 1 = m) (_hw : 0 < w)
    (hchain : List.Chain (· ≤ ·) t0 (ts ++ [tDeny]))
    (hwin : ∀ t ∈ ts ++ [tDeny], t - t0 < w)
    (hpost : w < tPost - t0) :
    (rate_limit_run m w Option.none (t0 :: (ts ++ [tDeny]))).1 =
      List.replicate m .allowed ++
        [.denied 429 "Rate limit exceeded. Please try again later."] ∧
    (rate_limit_step m w (rate_limit_run m w Option.none (t0 :: (ts ++ [tDeny]))).2 tPost).1 =
      .allowed := by
  rcases chain_append_single ts t0 tDeny hchain with ⟨hchain0, hlastD⟩
  have hstep0 : rate_limit_step m w Option.none t0 = (.allowed, some ⟨⟨1, t0⟩, t0 + w⟩) := by
    simp [rate_limit_step, cacheGet]
  set tl := ts.getLastD t0 with htldef
  have hrunts : rate_limit_run m w (some ⟨⟨1, t0⟩, t0 + w⟩) ts =
      (List.replicate ts.length .allowed, some ⟨⟨1 + ts.length, t0⟩, tl + w⟩) :=
    rate_limit_run_increments m w t0 ts 1 t0 (le_refl 1) (by omega) (le_refl t0) hchain0
      (fun x hx => hwin x (by simp [hx]))
  have htl : t0 ≤ tl := chain_le_getLastD ts t0 hchain0
  have hwdeny : tDeny - t0 < w := hwin tDeny (by simp)
  have hdenyhit : tDeny < tl + w := by linarith
  have hdenynotexp : ¬ (tDeny - t0 > w) := by linarith
  have hstepdeny : rate_limit_step m w (some ⟨⟨1 + ts.length, t0⟩, tl + w⟩) tDeny =
      (.denied 429 "Rate limit exceeded. Please try again later.",
       some ⟨⟨1 + ts.length, t0⟩, tl + w⟩) := by
    have hge : m ≤ 1 + ts.length := by omega
    simp [rate_limit_step, cacheGet, hdenyhit, hdenynotexp, hge]
  have hfull : rate_limit_run m w Option.none (t0 :: (ts ++ [tDeny])) =
      (.allowed :: (List.replicate ts.length .allowed ++
        [.denied 429 "Rate limit exceeded. Please try again later."]),
       some ⟨⟨1 + ts.length, t0⟩, tl + w⟩) := by
    simp only [rate_limit_run, hstep0]
    rw [rate_limit_run_append m w ts [tDeny] (some ⟨⟨1, t0⟩, t0 + w⟩), hrunts]
    simp only [rate_limit_run, hstepdeny]
  constructor
  · rw [hfull]
    have : m = ts.length + 1 := hlen.symm
    subst this
    simp [List.replicate_succ]
  · rw [hfull]
    by_cases hcase : tPost < tl + w
    · have hgt : tPost - t0 > w := hpost
      simp [rate_limit_step, cacheGet, hcase, hgt]
    · simp [rate_limit_step, cacheGet, hcase]

/-- Witness for C2 with `max_requests = 3`, `window_seconds = 60`: calls at
times 0, 10, 20 are allowed, a 4th call at time 30 gets the 429 error, and
a call at time 70 is allowed again. -/
theorem rate_limit_window_behavior_witness :
    (rate_limit_run 3 60 Option.none ((0 : ℚ) :: ([10, 20] ++ [30]))).1 =
      List.replicate 3 .allowed ++
        [.denied 429 "Rate limit exceeded. Please try again later."] ∧
    (rate_limit_step 3 60 (rate_limit_run 3 60 Option.none ((0 : ℚ) :: ([10, 20] ++ [30]))).2 70).1 =
      .allowed :=
  rate_limit_window_behavior 3 60 0 30 70 [10, 20] (by decide) (by norm_num)
    (by norm_num) (by intro t ht; fin_cases ht <;> norm_num) (by norm_num)

/-- C9: frame property of an allowed non-first request.  When the cache
holds an unexpired window `{count c, start s}` and the count is below the
limit, the wrapper lets the request through, stores `count + 1` with the
window-start `s` unchanged, and re-stores with the configured
`window_seconds` as the ttl (expiry `now + w`); since `start` is unchanged,
the window's logical end `start + window_seconds` does not slide. -/
theorem rate_limit_increment_frame (m c : ℕ) (w s now exp : ℚ)
    (hhit : now < exp) (hwin : now - s ≤ w) (hc : c < m) :
    rate_limit_step m w (some ⟨⟨c, s⟩, exp⟩) now = (.allowed, some ⟨⟨c + 1, s⟩, now + w⟩) ∧
    (⟨c + 1, s⟩ : RateData).start + w = s + w := by
  have h1 : ¬ (now - s > w) := by linarith
  have h2 : ¬ (m ≤ c) := by omega
  constructor
  · simp [rate_limit_step, cacheGet, hhit, h1, h2]
  · rfl

/-- Witness for C9: the second request at time 30 in a 60-second window
started at time 0 is allowed and stored as `{count 2, start 0}`. -/
theorem rate_limit_increment_frame_witness :
    rate_limit_step 10 60 (some ⟨⟨1, 0⟩, 60⟩) 30 = (.allowed, some ⟨⟨2, 0⟩, 30 + 60⟩) ∧
    (⟨2, 0⟩ : RateData).start + 60 = 0 + 60 :=
  rate_limit_increment_frame 10 1 60 0 30 60 (by norm_num) (by norm_num) (by norm_num)

example : validate_initials "ab1!" = .ok "AB " := rfl

example : validate_initials "x" = .ok "X  " := rfl

example : validate_initials "charles" = .ok "CHA" := rfl

example : validate_initials "123!" = .error "Initials must contain at least one letter" := rfl

lemma isLower_iff_toNat (c : Char) :
    c.isLower = (decide (97 ≤ c.toNat) && decide (c.toNat ≤ 122)) := by
  unfold Char.isLower Char.toNat
  simp [UInt32.le_def, BitVec.le_def, UInt32.toNat]

/-- A character produced by `Char.toUpper` that is still a letter is an
upper-case letter. -/
lemma toUpper_isUpper_of_isAlpha (c : Char) (h : (Char.toUpper c).isAlpha = true) :
    (Char.toUpper c).isUpper = true := by
  simp only [Char.toUpper] at h ⊢
  by_cases hc : c.toNat ≥ 97 ∧ c.toNat ≤ 122
  · rw [if_pos hc] at h ⊢
    obtain ⟨h1, h2⟩ := hc
    clear h
    generalize c.toNat = n at h1 h2
    interval_cases n <;> decide
  · rw [if_neg hc] at h ⊢
    have h2 : c.isUpper = true ∨ c.isLower = true := by
      simpa [Char.isAlpha] using h
    rcases h2 with hu | hl
    · exact hu
    · rw [isLower_iff_toNat] at hl
      simp at hl
      exact absurd ⟨hl.1, hl.2⟩ hc

/-- C4: initials normalization.  If no letter remains after uppercasing and
filtering, `validate_initials` rejects with the validation error; otherwise
it succeeds, and every successful result is exactly 3 characters, each an
upper-case letter or a padding space.  The function is total, so it never
throws on non-letter input. -/
theorem validate_initials_normalizes (s : String) :
    ((s.data.map Char.toUpper).filter Char.isAlpha = [] →
      validate_initials s = .error "Initials must contain at least one letter") ∧
    ((s.data.map Char.toUpper).filter Char.isAlpha ≠ [] →
      ∃ r, validate_initials s = .ok r) ∧
    (∀ r, validate_initials s = .ok r →
      r.data.length = 3 ∧ ∀ c ∈ r.data, c.isUpper = true ∨ c = ' ') := by
  refine ⟨?_, ?_, ?_⟩
  · intro h
    simp [validate_initials, h]
  · intro h
    have h0 : ¬ ((s.data.map Char.toUpper).filter Char.isAlpha).length = 0 := by
      simpa [List.length_eq_zero] using h
    exact ⟨_, by simp only [validate_initials]; rw [if_neg h0]⟩
  · intro r hr
    simp only [validate_initials] at hr
    by_cases h0 : ((s.data.map Char.toUpper).filter Char.isAlpha).length = 0
    · rw [if_pos h0] at hr
      exact absurd hr (by simp)
    · rw [if_neg h0] at hr
      have hrr : r = String.mk ((pyLjust
          (if ((s.data.map Char.toUpper).filter Char.isAlpha).length > 3 then
            ((s.data.map Char.toUpper).filter Char.isAlpha).take 3
          else (s.data.map Char.toUpper).filter Char.isAlpha) 3).take 3) := by
        cases hr
        rfl
      subst hrr
      have hsub : (if ((s.data.map Char.toUpper).filter Char.isAlpha).length > 3 then
            ((s.data.map Char.toUpper).filter Char.isAlpha).take 3
          else (s.data.map Char.toUpper).filter Char.isAlpha).length ≤ 3 := by
        split
        · simp
        · omega
      constructor
      · simp [pyLjust, List.length_take, List.length_append, List.length_replicate]
        omega
      · intro c hc
        have hc2 := List.mem_of_mem_take hc
        rcases List.mem_append.mp hc2 with hmem | hpad
        · left
          have hmemL : c ∈ (s.data.map Char.toUpper).filter Char.isAlpha := by
            revert hmem
            split
            · exact fun hm => List.mem_of_mem_take hm
            · exact id
          rcases List.mem_filter.mp hmemL with ⟨hmap, halpha⟩
          rcases List.mem_map.mp hmap with ⟨c0, _, hc0⟩
          subst hc0
          exact toUpper_isUpper_of_isAlpha c0 halpha
        · right
          exact List.eq_of_mem_replicate hpad

/-- Witness for C4: normalizing "ab1!" yields "AB ", which is 3 characters
of upper-case letters or padding spaces. -/
theorem validate_initials_normalizes_witness :
    "AB ".data.length = 3 ∧ ∀ c ∈ "AB ".data, c.isUpper = true ∨ c = ' ' :=
  (validate_initials_normalizes "ab1!").2.2 "AB " rfl

/-- Counterexample for C3: an anonymous request with a perfectly valid
payload is answered with the permission error and nothing is inserted, and
the permission error is not a created-score success. -/
theorem submit_score_anonymous_counterexample :
    submit_score [] 0 Option.none "ABC" 100 10 50 2 30 = ([], .authError) ∧
    (∀ st e, SubmitResp.authError ≠ SubmitResp.created st e) :=
  ⟨rfl, fun _ _ h => SubmitResp.noConfusion h⟩

/-- C3 as amended: `submit_score` requires an authenticated identity; an
anonymous request is rejected with an authorization error and no entry is
inserted, while an authenticated request with a valid payload inserts an
entry whose `user` is the authenticated identity (never null). -/
theorem submit_score_requires_auth (db : List HighScore) (now : ℕ) (initials : String)
    (score final_day : ℤ) (employment inflation services : ℚ) :
    (submit_score db now Option.none initials score final_day employment inflation services
      = (db, .authError)) ∧
    (∀ u ini, ¬ (initials.length < 1 ∨ initials.length > 3) →
      validate_initials initials = .ok ini →
      submit_score db now (some u) initials score final_day employment inflation services
        = (db ++ [⟨some u, ini, score, final_day, employment, inflation, services, now⟩],
           .created 201 ⟨some u, ini, score, final_day, employment, inflation, services, now⟩)) := by
  constructor
  · rfl
  · intro u ini hlen hini
    simp [submit_score, hlen, hini]
    omega

/-- Witness for C3's amended theorem at a concrete payload. -/
theorem submit_score_requires_auth_witness :
    (submit_score [] 5 Option.none "ab" 100 10 50 2 30 = ([], .authError)) ∧
    submit_score [] 5 (some 7) "ab" 100 10 50 2 30
      = ([⟨some 7, "AB ", 100, 10, 50, 2, 30, 5⟩],
         .created 201 ⟨some 7, "AB ", 100, 10, 50, 2, 30, 5⟩) :=
  ⟨(submit_score_requires_auth [] 5 "ab" 100 10 50 2 30).1,
   (submit_score_requires_auth [] 5 "ab" 100 10 50 2 30).2 7 "AB " (by decide) rfl⟩

example : pyInt? "50" = some 50 := rfl

example : pyInt? " -12 " = some (-12) := rfl

example : pyInt? "1_000" = some 1000 := rfl

example : pyInt? "abc" = Option.none := rfl

example : pyInt? "" = Option.none := rfl

example : pyInt? "1_" = Option.none := rfl

/-- Counterexample for C5: with one stored score and `limit=0` requested,
the handler returns an empty list — the requested limit is not raised
to 1, so the lower clamp to the range [1, 100] claimed by the spec does
not exist (`min(limit, 100)` only caps the upper end). -/
theorem leaderboard_no_lower_clamp_counterexample :
    leaderboard [demoScore] (fun _ => Option.none) (some "0") = .ok [] ∧
    ([] : List HighScore).length ≠ 1 :=
  ⟨rfl, by decide⟩

/-- C5 as amended: the handler caps the requested limit at 100 before
querying (never more than 100 entries are returned, even for
`limit=1000`), but applies no lower clamp: `limit=0` yields an empty
list. -/
theorem leaderboard_caps_at_100 (db : List HighScore) (p : Option String) :
    (∀ data, leaderboard db (fun _ => Option.none) p = .ok data → data.length ≤ 100) ∧
    leaderboard db (fun _ => Option.none) (some "0") = .ok [] := by
  constructor
  · intro data h
    simp only [leaderboard] at h
    rcases hp : (match p with
                 | Option.none => some (50 : ℤ)
                 | some s => pyInt? s) with _ | l0
    · rw [hp] at h
      exact absurd h (by simp)
    · rw [hp] at h
      simp only at h
      by_cases hneg : min l0 100 < 0
      · rw [if_pos hneg] at h
        exact absurd h (by simp)
      · rw [if_neg hneg] at h
        have hd : data = (orderByScoreDesc db).take (min l0 100).toNat := by
          cases h
          rfl
        subst hd
        calc ((orderByScoreDesc db).take (min l0 100).toNat).length
            ≤ (min l0 100).toNat := by
              rw [List.length_take]
              exact Nat.min_le_left _ _
          _ ≤ 100 := by
              have : min l0 100 ≤ (100 : ℤ) := min_le_right _ _
              omega
  · have hp : pyInt? "0" = some 0 := rfl
    simp [leaderboard, hp]

/-- Witness for C5's amended theorem: `limit=1000` over a single stored
score returns that one row (≤ 100 rows), and `limit=0` returns none. -/
theorem leaderboard_caps_at_100_witness :
    [demoScore].length ≤ 100 ∧
    leaderboard [demoScore] (fun _ => Option.none) (some "0") = .ok [] :=
  ⟨(leaderboard_caps_at_100 [demoScore] (some "1000")).1 [demoScore] rfl,
   (leaderboard_caps_at_100 [demoScore] (some "0")).2⟩

lemma mem_insertByScoreDesc {y e : HighScore} :
    ∀ {l : List HighScore}, y ∈ insertByScoreDesc e l → y = e ∨ y ∈ l := by
  intro l
  induction l with
  | nil => intro h; simpa [insertByScoreDesc] using h
  | cons x xs ih =>
    intro h
    unfold insertByScoreDesc at h
    by_cases hc : x.score ≤ e.score
    · rw [if_pos hc] at h
      rcases List.mem_cons.mp h with he | hmem
      · exact Or.inl he
      · exact Or.inr hmem
    · rw [if_neg hc] at h
      rcases List.mem_cons.mp h with he | hmem
      · subst he; exact Or.inr (List.mem_cons_self y xs)
      · rcases ih hmem with he | hxs
        · exact Or.inl he
        · exact Or.inr (List.mem_cons_of_mem x hxs)

lemma pairwise_insertByScoreDesc (e : HighScore) (l : List HighScore)
    (h : l.Pairwise (fun a b => b.score ≤ a.score)) :
    (insertByScoreDesc e l).Pairwise (fun a b => b.score ≤ a.score) := by
  induction l with
  | nil => simp [insertByScoreDesc]
  | cons x xs ih =>
    rcases List.pairwise_cons.mp h with ⟨hx, hxs⟩
    unfold insertByScoreDesc
    by_cases hc : x.score ≤ e.score
    · rw [if_pos hc]
      refine List.pairwise_cons.mpr ⟨?_, h⟩
      intro y hy
      rcases List.mem_cons.mp hy with hyx | hyxs
      · subst hyx; exact hc
      · exact le_trans (hx y hyxs) hc
    · rw [if_neg hc]
      refine List.pairwise_cons.mpr ⟨?_, ih hxs⟩
      intro y hy
      rcases mem_insertByScoreDesc hy with hye | hyxs
      · subst hye; omega
      · exact hx y hyxs

lemma pairwise_orderByScoreDesc (l : List HighScore) :
    (orderByScoreDesc l).Pairwise (fun a b => b.score ≤ a.score) := by
  induction l with
  | nil => simp [orderByScoreDesc]
  | cons x xs ih => exact pairwise_insertByScoreDesc x (orderByScoreDesc xs) ih

/-- Counterexample for C6: the leaderboard query orders by `-score` only
(views.py:257), which overrides the model's default
`['-score', '-achieved_at']` ordering.  With two tied scores the earlier
achieved entry is returned first, not the later one, so ties are not broken
by descending achieved time. -/
theorem leaderboard_tie_order_counterexample :
    leaderboard [demoTieEarly, demoTieLate] (fun _ => Option.none) (some "10") =
      .ok [demoTieEarly, demoTieLate] ∧
    demoTieEarly.score = demoTieLate.score ∧
    demoTieEarly.achieved_at < demoTieLate.achieved_at :=
  ⟨rfl, rfl, by decide⟩

/-- C6 as amended: every list the leaderboard returns from the store (no
cached entry) is sorted by descending score; the tie order between equal
scores is the store's table order, not descending achieved time. -/
theorem leaderboard_sorted_desc_score (db : List HighScore) (p : Option String)
    (data : List HighScore)
    (h : leaderboard db (fun _ => Option.none) p = .ok data) :
    data.Pairwise (fun a b => b.score ≤ a.score) := by
  simp only [leaderboard] at h
  rcases hp : (match p with
               | Option.none => some (50 : ℤ)
               | some s => pyInt? s) with _ | l0
  · rw [hp] at h
    exact absurd h (by simp)
  · rw [hp] at h
    simp only at h
    by_cases hneg : min l0 100 < 0
    · rw [if_pos hneg] at h
      exact absurd h (by simp)
    · rw [if_neg hneg] at h
      have hd : data = (orderByScoreDesc db).take (min l0 100).toNat := by
        cases h
        rfl
      subst hd
      exact (pairwise_orderByScoreDesc db).sublist (List.take_sublist _ _)

/-- Witness for C6's amended theorem: the two tied demo entries come back
sorted by (equal) descending score. -/
theorem leaderboard_sorted_desc_score_witness :
    [demoTieEarly, demoTieLate].Pairwise (fun a b => b.score ≤ a.score) :=
  leaderboard_sorted_desc_score [demoTieEarly, demoTieLate] (some "10")
    [demoTieEarly, demoTieLate] rfl

/-- C10: a present but unparseable `limit` query parameter makes `int()`
raise, which the handler answers as a 400 error envelope; the default of 50
is used only when the parameter is absent. -/
theorem leaderboard_limit_parse (db : List HighScore) (lbCache : ℤ → Option (List HighScore))
    (s : String) (h : pyInt? s = Option.none) :
    leaderboard db lbCache (some s) = .err 400 false ∧
    leaderboard db (fun _ => Option.none) Option.none = .ok ((orderByScoreDesc db).take 50) := by
  constructor
  · simp [leaderboard, h]
  · rfl

/-- Witness for C10: `limit=abc` answers 400; an absent parameter serves
the top 50. -/
theorem leaderboard_limit_parse_witness :
    leaderboard [demoScore] (fun _ => Option.none) (some "abc") = .err 400 false ∧
    leaderboard [demoScore] (fun _ => Option.none) Option.none =
      .ok ((orderByScoreDesc [demoScore]).take 50) :=
  leaderboard_limit_parse [demoScore] (fun _ => Option.none) "abc" rfl

/-- Counterexample for C7: the validator accepts `currentDay = 50.5`, a
value that is not an integer, so acceptance is not equivalent to
`currentDay` being an integer in [1, 100]. -/
theorem validate_game_state_noninteger_counterexample :
    validate_game_state (.dict [("currentDay", .float (101/2)), ("employment", .int 50),
      ("inflation", .int 0)]) = .ok ∧
    (∀ n : ℤ, PyVal.float (101/2) ≠ PyVal.int n) := by
  constructor
  · simp [validate_game_state, pyLookup, pyInRange, pyNum, List.find?]
    norm_num
  · intro n h
    exact PyVal.noConfusion h

/-- C7 as amended: `validate_game_state` returns ok exactly when the input
is a mapping carrying the keys `currentDay`, `employment` and `inflation`
with *numeric* values (int, float, or bool — integer-ness of `currentDay`
is not enforced) in the ranges [1,100], [0,100] and [-10,100]; the spec's
concrete examples hold (`currentDay` 0 and 101 fail with the specific
short-circuited message, and {50, 50, 0} succeeds).  A non-numeric value
raises a `TypeError` (`typeError`), not ok. -/
theorem validate_game_state_ok_iff (v : PyVal) :
    (validate_game_state v = .ok ↔
      ∃ d, v = .dict d ∧
        (∃ q, (pyLookup d "currentDay").bind pyNum = some q ∧ 1 ≤ q ∧ q ≤ 100) ∧
        (∃ q, (pyLookup d "employment").bind pyNum = some q ∧ 0 ≤ q ∧ q ≤ 100) ∧
        (∃ q, (pyLookup d "inflation").bind pyNum = some q ∧ -10 ≤ q ∧ q ≤ 100)) ∧
    validate_game_state (.dict [("currentDay", .int 0), ("employment", .int 50),
      ("inflation", .int 0)]) = .err "Invalid currentDay value" ∧
    validate_game_state (.dict [("currentDay", .int 101), ("employment", .int 50),
      ("inflation", .int 0)]) = .err "Invalid currentDay value" ∧
    validate_game_state (.dict [("currentDay", .int 50), ("employment", .int 50),
      ("inflation", .int 0)]) = .ok := by
  refine ⟨?_, by decide, by decide, by decide⟩
  constructor
  · intro h
    cases v with
    | dict d =>
      refine ⟨d, rfl, ?_⟩
      simp only [validate_game_state] at h
      rcases hcd : pyLookup d "currentDay" with _ | xcd
      · rw [hcd] at h; simp at h
      · rw [hcd] at h
        rcases hem : pyLookup d "employment" with _ | xem
        · rw [hem] at h; simp at h
        · rw [hem] at h
          rcases hinf : pyLookup d "inflation" with _ | xinf
          · rw [hinf] at h; simp at h
          · rw [hinf] at h
            simp only [Option.isNone_some, Bool.false_eq_true, if_false, Option.getD_some] at h
            rcases h1 : pyInRange 1 100 xcd with _ | b1
            · rw [h1] at h; simp at h
            · rw [h1] at h
              cases b1 with
              | false => simp at h
              | true =>
                rcases h2 : pyInRange 0 100 xem with _ | b2
                · rw [h2] at h; simp at h
                · rw [h2] at h
                  cases b2 with
                  | false => simp at h
                  | true =>
                    rcases h3 : pyInRange (-10) 100 xinf with _ | b3
                    · rw [h3] at h; simp at h
                    · rw [h3] at h
                      cases b3 with
                      | false => simp at h
                      | true =>
                        rcases Option.map_eq_some'.mp h1 with ⟨q1, hq1, hb1⟩
                        rcases Option.map_eq_some'.mp h2 with ⟨q2, hq2, hb2⟩
                        rcases Option.map_eq_some'.mp h3 with ⟨q3, hq3, hb3⟩
                        simp only [Bool.and_eq_true, decide_eq_true_eq] at hb1 hb2 hb3
                        exact ⟨⟨q1, by simp [hq1], hb1.1, hb1.2⟩,
                               ⟨q2, by simp [hq2], hb2.1, hb2.2⟩,
                               ⟨q3, by simp [hq3], hb3.1, hb3.2⟩⟩
    | none => simp [validate_game_state] at h
    | bool b => simp [validate_game_state] at h
    | int n => simp [validate_game_state] at h
    | float q => simp [validate_game_state] at h
    | str s => simp [validate_game_state] at h
    | list l => simp [validate_game_state] at h
  · rintro ⟨d, rfl, ⟨q1, hq1, h1a, h1b⟩, ⟨q2, hq2, h2a, h2b⟩, ⟨q3, hq3, h3a, h3b⟩⟩
    rcases Option.bind_eq_some.mp hq1 with ⟨x1, hl1, hn1⟩
    rcases Option.bind_eq_some.mp hq2 with ⟨x2, hl2, hn2⟩
    rcases Option.bind_eq_some.mp hq3 with ⟨x3, hl3, hn3⟩
    simp [validate_game_state, pyInRange, hl1, hl2, hl3, hn1, hn2, hn3,
      h1a, h1b, h2a, h2b, h3a, h3b]

/-- Witness for C7's amended theorem at the spec's succeeding example. -/
theorem validate_game_state_ok_iff_witness :
    validate_game_state (.dict [("currentDay", .int 50), ("employment", .int 50),
      ("inflation", .int 0)]) = .ok :=
  (validate_game_state_ok_iff (.dict [("currentDay", .int 50), ("employment", .int 50),
    ("inflation", .int 0)])).2.2.2
